import Mathlib

/-!
Shallow embedding of the categorical `Encoder` of `automl/datautils.py` and
proofs about its specification.

Column values are modelled by `Val`: the columns this encoder is used on hold
strings, the universal absent marker (Python `None`), or the ordinal codes
produced by the string pre-encoder.  Encoded cells are modelled by `EVal`:
integer/floating codes, the not-a-number placeholder, one-hot indicator rows,
and raw passthrough values (no-op strategy).  Fallible operations return
`Except Err`.

The delegate encoders (`LabelEncoder`, `OrdinalEncoder`, `LabelBinarizer`,
`OneHotEncoder`) are external library primitives; they are modelled from the
capability contract the specification gives for them: an ordinal/label
primitive maps each fitted class to its index in the fitted class list and
fails on unseen values; the one-hot primitive in ignore-unknown mode maps an
unseen value to an all-zero indicator row.
-/

set_option autoImplicit false

deriving instance DecidableEq for Except

namespace AutoMLBench

/-- A value of a data column: a string, the universal missing marker
(Python `None`), or a numeric ordinal code. -/
inductive Val where
  | vstr  : String → Val
  | vnone : Val
  | vnum  : Nat → Val
deriving DecidableEq, Repr

/-- An encoded output cell: an integer/floating code, the not-a-number
placeholder written by the mask policy, a one-hot indicator row, or a raw
passthrough value (no-op strategy). -/
inductive EVal where
  | code : Nat → EVal
  | nan  : EVal
  | row  : List Nat → EVal
  | raw  : Val → EVal
deriving DecidableEq, Repr

/-- Failure modes of the embedded operations. -/
inductive Err where
  | assertionError
  | valueError
  | unseenLabel
  | typeError
  | notFitted
  | indexError
deriving DecidableEq, Repr

/-- Output numeric dtype of the encoder (`encoded_type`): the code only
instantiates it with `int` (targets) or `float` (features, default). -/
inductive NumType where
  | int
  | float
deriving DecidableEq, Repr

/-- Monadic map over a list for `Except`, written recursively so that proofs
can proceed by structural induction. -/
def mapE {α β : Type} (f : α → Except Err β) : List α → Except Err (List β)
  | [] => Except.ok []
  | x :: xs =>
    match f x with
    | Except.error err => Except.error err
    | Except.ok y =>
        match mapE f xs with
        | Except.error err => Except.error err
        | Except.ok ys => Except.ok (y :: ys)

/-- Index of the first occurrence of a value in a class list. -/
def idxOf (cs : List Val) (v : Val) : Option Nat :=
  match cs with
  | [] => none
  | c :: cs => if c = v then some 0 else (idxOf cs v).map (· + 1)

/-- Projection of a `Val` to its string payload; fails on non-strings. -/
def asStr : Val → Except Err String
  | Val.vstr s => Except.ok s
  | _ => Except.error Err.typeError

/-- Projection of a `Val` to its numeric payload; fails on non-numbers. -/
def asNum : Val → Except Err Nat
  | Val.vnum n => Except.ok n
  | _ => Except.error Err.typeError

/-- Lexicographic comparison of character lists by code point, the order
`np.unique` sorts string columns by. -/
def charsLe : List Char → List Char → Bool
  | [], _ => true
  | _ :: _, [] => false
  | a :: as, b :: bs => if a = b then charsLe as bs else decide (a ≤ b)

/-- Lexicographic string comparison by code point. -/
def strLeB (a b : String) : Bool :=
  charsLe a.data b.data

/-- Numeric comparison as a Bool predicate. -/
def natLeB (a b : Nat) : Bool :=
  decide (a ≤ b)

/-- Insertion of an element into a list sorted by the comparator `le`. -/
def insertLe {α : Type} (le : α → α → Bool) (x : α) : List α → List α
  | [] => [x]
  | y :: ys => if le x y then x :: y :: ys else y :: insertLe le x ys

/-- Insertion sort by the comparator `le`. -/
def sortLe {α : Type} (le : α → α → Bool) : List α → List α
  | [] => []
  | x :: xs => insertLe le x (sortLe le xs)

/-- Removal of adjacent duplicates; on a sorted list this yields the sorted
set of unique values. -/
def dedupAdj {α : Type} [DecidableEq α] : List α → List α
  | [] => []
  | [x] => [x]
  | x :: y :: ys => if x = y then dedupAdj (y :: ys) else x :: dedupAdj (y :: ys)

/-- Model of `np.unique` on an object column: sorted unique values.  An
all-string column sorts lexicographically, an all-number column numerically;
a mixed column (e.g. strings together with `None`) raises a comparison
`TypeError` in Python 3, modelled as an error. -/
def npUnique (xs : List Val) : Except Err (List Val) :=
  match mapE asStr xs with
  | Except.ok strs =>
      Except.ok ((dedupAdj (sortLe strLeB strs)).map Val.vstr)
  | Except.error _ =>
      match mapE asNum xs with
      | Except.ok ns =>
          Except.ok ((dedupAdj (sortLe natLeB ns)).map Val.vnum)
      | Except.error e => Except.error e

/-- State of an `Encoder` instance.  Configuration fields are set by
`__init__`; `classes`, `enc_classes` (`_enc_classes_`), and
`missing_encoded_value` are the fitted state.  `str_classes` and
`delegate_classes` model the internal fitted state of the external
`str_encoder` and delegate objects (their fit input). -/
structure Encoder where
  etype : String
  for_target : Bool
  encoded_type : NumType
  missing_handle : String
  missing_values : List Val
  missing_replaced_by : Val
  missing_encoded_value : Option EVal
  has_str_encoder : Bool
  has_delegate : Bool
  classes : Option (List Val)
  enc_classes : Option (List Val)
  str_classes : Option (List Val)
  delegate_classes : Option (List Val)
deriving DecidableEq, Repr

/-- Model of `Encoder.__init__`: validates the missing-value policy (the
`assert`) and then the strategy name (the `else: raise ValueError`), selects
the delegate family by strategy plus target flag (`has_delegate`,
`has_str_encoder`), forces the output dtype to `int` for targets, and unions
`None` into the missing-value set. -/
def mkEncoder (etype : String) (target : Bool) (encoded_type : NumType)
    (missing_handle : String) (missing_values : Option (List Val))
    (missing_replaced_by : Val) : Except Err Encoder :=
  if missing_handle ∉ (["ignore", "mask", "encode"] : List String) then
    Except.error Err.assertionError
  else if etype ∉ (["label", "one-hot", "no-op"] : List String) then
    Except.error Err.valueError
  else
    Except.ok
      { etype := etype
        for_target := target
        encoded_type := if target then NumType.int else encoded_type
        missing_handle := missing_handle
        missing_values := Val.vnone :: missing_values.getD []
        missing_replaced_by := missing_replaced_by
        missing_encoded_value := none
        has_str_encoder := etype == "one-hot" && !target
        has_delegate := !(etype == "no-op")
        classes := none
        enc_classes := none
        str_classes := none
        delegate_classes := none }

/-- Property `_ignore_missing`. -/
def Encoder.ignoreMissing (e : Encoder) : Bool :=
  e.for_target || e.missing_handle == "ignore"

/-- Property `_mask_missing`. -/
def Encoder.maskMissing (e : Encoder) : Bool :=
  !e.for_target && e.missing_handle == "mask"

/-- Property `_encode_missing`. -/
def Encoder.encodeMissing (e : Encoder) : Bool :=
  !e.for_target && e.missing_handle == "encode"

/-- Transform of the string pre-encoder (`str_encoder.transform`, an ordinal
primitive): maps a fitted class to its index, fails on an unseen value. -/
def strEncTransform (cs : List Val) (v : Val) : Except Err Val :=
  match idxOf cs v with
  | some i => Except.ok (Val.vnum i)
  | none => Except.error Err.unseenLabel

/-- Label/ordinal delegate transform of one value: the index of the value in
the fitted class list, failing on an unseen value. -/
def labelTransform (cs : List Val) (v : Val) : Except Err EVal :=
  match idxOf cs v with
  | some i => Except.ok (EVal.code i)
  | none => Except.error Err.unseenLabel

/-- One-hot delegate transform of one value, in ignore-unknown mode
(`OneHotEncoder(handle_unknown="ignore")`): the indicator row of the value
when fitted, the all-zero row otherwise. -/
def onehotRow (cs : List Val) (v : Val) : EVal :=
  match idxOf cs v with
  | some i => EVal.row ((List.range cs.length).map fun j => if j = i then 1 else 0)
  | none => EVal.row (List.replicate cs.length 0)

/-- Binarizing delegate transform of one value (`LabelBinarizer`): with two
fitted classes a single indicator column for the second class, otherwise a
full indicator row; an unseen value is a transform-time failure. -/
def binarizeRow (cs : List Val) (v : Val) : Except Err EVal :=
  if cs.length = 2 then
    Except.ok (EVal.row [if cs.get? 1 = some v then 1 else 0])
  else
    match idxOf cs v with
    | some i =>
        Except.ok (EVal.row ((List.range cs.length).map fun j => if j = i then 1 else 0))
    | none => Except.error Err.unseenLabel

/-- Delegate transform of one value, dispatched exactly as `__init__` selects
the delegate: label-target uses `LabelEncoder`, label-feature uses
`OrdinalEncoder` (the two have the same value-to-index contract),
one-hot-target uses `LabelBinarizer`, one-hot-feature uses
`OneHotEncoder(handle_unknown="ignore")`. -/
def Encoder.delegateTransform1 (e : Encoder) (v : Val) : Except Err EVal :=
  match e.delegate_classes with
  | none => Except.error Err.notFitted
  | some cs =>
      if e.etype == "label" then labelTransform cs v
      else if e.for_target then binarizeRow cs v
      else Except.ok (onehotRow cs v)

/-- Model of `Encoder.fit`: returns immediately when there is no delegate;
otherwise computes `classes` as the sorted unique values (with the
replacement sentinel inserted unless missing values are ignored), computes
`_enc_classes_` through the string pre-encoder when one is configured, fits
the string pre-encoder and the delegate on `self.classes` (the source fits
the delegate on `self.classes` in both branches, not on `_enc_classes_`),
and under the mask policy records the first entry of
`delegate.fit_transform(self.classes)` as `missing_encoded_value`. -/
def Encoder.fit (e : Encoder) (vec : List Val) : Except Err Encoder :=
  if !e.has_delegate then Except.ok e
  else
    match npUnique (if e.ignoreMissing then vec else e.missing_replaced_by :: vec) with
    | Except.error err => Except.error err
    | Except.ok cs =>
      let e1 : Encoder :=
        { e with
          classes := some cs
          enc_classes := some (if e.has_str_encoder then (List.range cs.length).map Val.vnum else cs)
          str_classes := if e.has_str_encoder then some cs else e.str_classes
          delegate_classes := some cs }
      if e1.maskMissing then
        match mapE (e1.delegateTransform1) cs with
        | Except.error err => Except.error err
        | Except.ok encoded =>
            match encoded.head? with
            | some h => Except.ok { e1 with missing_encoded_value := some h }
            | none => Except.error Err.indexError
      else
        Except.ok e1

/-- Input shape of `transform`: a single scalar value or a sequence. -/
inductive TIn where
  | scalar : Val → TIn
  | seq : List Val → TIn
deriving DecidableEq, Repr

/-- Output shape of `transform`, mirroring the input shape. -/
inductive TOut where
  | scalar : EVal → TOut
  | seq : List EVal → TOut
deriving DecidableEq, Repr

/-- Sequence core of `Encoder.transform`: applies the string pre-encoder
first when configured; under the mask or encode policy computes the
missing-value mask over the (possibly pre-encoded) values and, when any
entry is missing, substitutes the replacement value, delegates, and under
mask with non-integer output overwrites the masked positions with the
not-a-number placeholder (the `res.astype` call is a no-op on symbolic
codes: the ordinal feature delegate already outputs floating codes, and
`encoded_type` is `float` on this branch so `np.NaN` is written; a masked
row of a two-dimensional one-hot result becomes an all-NaN row, modelled as
a single `nan` cell); in every other case delegates directly. -/
def Encoder.transformSeq (e : Encoder) (vs0 : List Val) : Except Err (List EVal) :=
  match (if e.has_str_encoder then
           match e.str_classes with
           | none => Except.error Err.notFitted
           | some scs => mapE (strEncTransform scs) vs0
         else Except.ok vs0) with
  | Except.error err => Except.error err
  | Except.ok vs =>
    if e.maskMissing || e.encodeMissing then
      let mask := vs.map fun v => decide (v ∈ e.missing_values)
      if mask.any id then
        let nvec := vs.map fun v => if v ∈ e.missing_values then e.missing_replaced_by else v
        match mapE (e.delegateTransform1) nvec with
        | Except.error err => Except.error err
        | Except.ok res =>
            if e.maskMissing && !(e.encoded_type == NumType.int) then
              Except.ok (List.zipWith (fun r m => if m then EVal.nan else r) res mask)
            else
              Except.ok res
      else
        mapE (e.delegateTransform1) vs
    else
      mapE (e.delegateTransform1) vs

/-- Model of `Encoder.transform`: without a delegate the input is returned
unchanged (raw passthrough); a scalar input that is a string is wrapped into
a length-1 sequence and the result unwrapped (`return_value = v[0]`); a
scalar input that is not a string is not wrapped, and every downstream
operation of the stateful strategies (pre-encoder transform, the mask
comprehension, the delegate transform) rejects such a 0-d non-iterable
input, modelled as a type error. -/
def Encoder.transform (e : Encoder) (v : TIn) : Except Err TOut :=
  if !e.has_delegate then
    match v with
    | TIn.scalar x => Except.ok (TOut.scalar (EVal.raw x))
    | TIn.seq xs => Except.ok (TOut.seq (xs.map EVal.raw))
  else
    match v with
    | TIn.seq xs => (e.transformSeq xs).map TOut.seq
    | TIn.scalar (Val.vstr s) =>
        match e.transformSeq [Val.vstr s] with
        | Except.ok (r :: _) => Except.ok (TOut.scalar r)
        | Except.ok [] => Except.error Err.indexError
        | Except.error err => Except.error err
    | TIn.scalar _ => Except.error Err.typeError

/-- Label/ordinal delegate inverse transform: the class at the given code. -/
def labelInverse (cs : List Val) (x : EVal) : Except Err Val :=
  match x with
  | EVal.code i =>
      match cs.get? i with
      | some c => Except.ok c
      | none => Except.error Err.indexError
  | _ => Except.error Err.typeError

/-- One-hot delegate inverse transform in ignore-unknown mode: the class at
the first non-zero column, or `None` for the all-zero (unknown) row. -/
def onehotInverse (cs : List Val) (x : EVal) : Except Err Val :=
  match x with
  | EVal.row r =>
      match r.findIdx? (fun b => b ≠ 0) with
      | some i =>
          match cs.get? i with
          | some c => Except.ok c
          | none => Except.error Err.indexError
      | none => Except.ok Val.vnone
  | _ => Except.error Err.typeError

/-- Binarizing delegate inverse transform: with two classes a thresholded
single column, otherwise the class of the first maximal column. -/
def binarizeInverse (cs : List Val) (x : EVal) : Except Err Val :=
  match x with
  | EVal.row r =>
      if cs.length = 2 then
        match r with
        | [b] =>
            match cs.get? (if b = 0 then 0 else 1) with
            | some c => Except.ok c
            | none => Except.error Err.indexError
        | _ => Except.error Err.typeError
      else
        match r.findIdx? (fun b => decide (b = r.foldl Nat.max 0)) with
        | some i =>
            match cs.get? i with
            | some c => Except.ok c
            | none => Except.error Err.indexError
        | none => Except.error Err.typeError
  | _ => Except.error Err.typeError

/-- Model of `Encoder.inverse_transform`: without a delegate the input is
returned unchanged (raw cells unwrap across the value/encoded-value
boundary of the embedding); otherwise it delegates directly to the fitted
decoder, with no attempt to reconstruct masked missing markers. -/
def Encoder.inverse_transform (e : Encoder) (xs : List EVal) : Except Err (List Val) :=
  if !e.has_delegate then
    mapE (fun x => match x with
      | EVal.raw v => Except.ok v
      | _ => Except.error Err.typeError) xs
  else
    match e.delegate_classes with
    | none => Except.error Err.notFitted
    | some cs =>
        if e.etype == "label" then mapE (labelInverse cs) xs
        else if e.for_target then mapE (binarizeInverse cs) xs
        else mapE (onehotInverse cs) xs

/-! Helper lemmas about the list-level building blocks. -/

theorem mapE_ok_of_forall {α β : Type} {f : α → Except Err β} {g : α → β} :
    ∀ {xs : List α}, (∀ x ∈ xs, f x = Except.ok (g x)) →
      mapE f xs = Except.ok (xs.map g)
  | [], _ => rfl
  | x :: xs, h => by
      have hx := h x (List.mem_cons_self x xs)
      have ih := @mapE_ok_of_forall _ _ f g xs
        (fun y hy => h y (List.mem_cons_of_mem x hy))
      simp [mapE, hx, ih]

theorem mapE_length {α β : Type} {f : α → Except Err β} :
    ∀ {xs : List α} {ys : List β}, mapE f xs = Except.ok ys → ys.length = xs.length
  | [], ys, h => by
      simp [mapE] at h
      simp [← h]
  | x :: xs, ys, h => by
      cases hx : f x with
      | error err => simp [mapE, hx] at h
      | ok y =>
          cases hxs : mapE f xs with
          | error err => simp [mapE, hx, hxs] at h
          | ok ys' =>
              simp [mapE, hx, hxs] at h
              have ih := mapE_length hxs
              simp [← h, ih]

theorem mapE_mem {α β : Type} {f : α → Except Err β} :
    ∀ {xs : List α} {ys : List β}, mapE f xs = Except.ok ys →
      ∀ x ∈ xs, ∃ y, f x = Except.ok y ∧ y ∈ ys
  | [], _, _, x, hx => absurd hx (List.not_mem_nil x)
  | x' :: xs, ys, h, x, hx => by
      cases hx' : f x' with
      | error err => simp [mapE, hx'] at h
      | ok y' =>
          cases hxs : mapE f xs with
          | error err => simp [mapE, hx', hxs] at h
          | ok ys' =>
              simp [mapE, hx', hxs] at h
              rcases List.mem_cons.mp hx with hx | hx
              · exact ⟨y', by simp [hx, hx', ← h]⟩
              · rcases mapE_mem hxs x hx with ⟨y, hy, hmem⟩
                exact ⟨y, hy, by simp [← h, hmem]⟩

theorem mapE_not_ok {α β : Type} {f : α → Except Err β} {xs : List α} {x : α}
    (hx : x ∈ xs) (hfx : ∀ y, f x ≠ Except.ok y) :
    ∀ ys, mapE f xs ≠ Except.ok ys := by
  intro ys h
  rcases mapE_mem h x hx with ⟨y, hy, _⟩
  exact hfx y hy

theorem mapE_congr {α β : Type} {f g : α → Except Err β} :
    ∀ {xs : List α}, (∀ x ∈ xs, f x = g x) → mapE f xs = mapE g xs
  | [], _ => rfl
  | x :: xs, h => by
      have hx := h x (List.mem_cons_self x xs)
      have ih := @mapE_congr _ _ f g xs
        (fun y hy => h y (List.mem_cons_of_mem x hy))
      simp [mapE, hx, ih]

theorem idxOf_some_of_mem {v : Val} : ∀ {cs : List Val}, v ∈ cs → ∃ i, idxOf cs v = some i
  | [], h => absurd h (List.not_mem_nil v)
  | c :: cs, h => by
      by_cases hc : c = v
      · exact ⟨0, by simp [idxOf, hc]⟩
      · rcases List.mem_cons.mp h with h | h
        · exact absurd h.symm hc
        · rcases idxOf_some_of_mem h with ⟨i, hi⟩
          exact ⟨i + 1, by simp [idxOf, hc, hi]⟩

theorem idxOf_none_of_not_mem {v : Val} : ∀ {cs : List Val}, v ∉ cs → idxOf cs v = none
  | [], _ => rfl
  | c :: cs, h => by
      have hc : ¬ c = v := fun hcv => h (hcv ▸ List.mem_cons_self c cs)
      have hcs : v ∉ cs := fun hm => h (List.mem_cons_of_mem c hm)
      simp [idxOf, hc, idxOf_none_of_not_mem hcs]

theorem mem_insertLe {α : Type} {le : α → α → Bool} {x a : α} :
    ∀ {l : List α}, a ∈ insertLe le x l ↔ a = x ∨ a ∈ l
  | [] => by simp [insertLe]
  | y :: ys => by
      by_cases h : le x y = true
      · simp [insertLe, h, List.mem_cons]
      · simp [insertLe, h, List.mem_cons, @mem_insertLe _ le x a ys]
        tauto

theorem mem_sortLe {α : Type} {le : α → α → Bool} {a : α} :
    ∀ {l : List α}, a ∈ sortLe le l ↔ a ∈ l
  | [] => by simp [sortLe]
  | x :: xs => by
      simp only [sortLe, mem_insertLe, List.mem_cons, @mem_sortLe _ le a xs]

theorem mem_dedupAdj {α : Type} [DecidableEq α] {a : α} :
    ∀ {l : List α}, a ∈ dedupAdj l ↔ a ∈ l
  | [] => by simp [dedupAdj]
  | [x] => by simp [dedupAdj]
  | x :: y :: ys => by
      by_cases h : x = y
      · subst h
        simp [dedupAdj, @mem_dedupAdj _ _ a (x :: ys), List.mem_cons]
      · simp only [dedupAdj, if_neg h, List.mem_cons, @mem_dedupAdj _ _ a (y :: ys)]

theorem asStr_ok {v : Val} {s : String} (h : asStr v = Except.ok s) : v = Val.vstr s := by
  cases v <;> simp [asStr] at h <;> simp [h]

theorem asNum_ok {v : Val} {n : Nat} (h : asNum v = Except.ok n) : v = Val.vnum n := by
  cases v <;> simp [asNum] at h <;> simp [h]

theorem npUnique_mem {xs cs : List Val} (h : npUnique xs = Except.ok cs) {v : Val}
    (hm : v ∈ xs) : v ∈ cs := by
  unfold npUnique at h
  cases hstr : mapE asStr xs with
  | ok strs =>
      rw [hstr] at h
      rcases mapE_mem hstr v hm with ⟨s, hs, hmem⟩
      have hv := asStr_ok hs
      subst hv
      simp only [Except.ok.injEq] at h
      rw [← h]
      exact List.mem_map_of_mem Val.vstr
        (mem_dedupAdj.mpr (mem_sortLe.mpr hmem))
  | error err =>
      rw [hstr] at h
      cases hnum : mapE asNum xs with
      | ok ns =>
          rw [hnum] at h
          rcases mapE_mem hnum v hm with ⟨n, hn, hmem⟩
          have hv := asNum_ok hn
          subst hv
          simp only [Except.ok.injEq] at h
          rw [← h]
          exact List.mem_map_of_mem Val.vnum
            (mem_dedupAdj.mpr (mem_sortLe.mpr hmem))
      | error err' => rw [hnum] at h; exact absurd h (by simp)

theorem npUnique_all_str {xs cs : List Val} {t : String}
    (h : npUnique xs = Except.ok cs) (ht : Val.vstr t ∈ xs) :
    ∀ c ∈ cs, ∃ u, c = Val.vstr u := by
  unfold npUnique at h
  cases hstr : mapE asStr xs with
  | ok strs =>
      rw [hstr] at h
      simp only [Except.ok.injEq] at h
      rw [← h]
      intro c hc
      rcases List.mem_map.mp hc with ⟨u, _, hu⟩
      exact ⟨u, hu.symm⟩
  | error err =>
      rw [hstr] at h
      cases hnum : mapE asNum xs with
      | ok ns =>
          rcases mapE_mem hnum (Val.vstr t) ht with ⟨n, hn, _⟩
          exact absurd hn (by simp [asNum])
      | error err' => rw [hnum] at h; exact absurd h (by simp)

/-! Order-theoretic facts about the comparators and the sort, used to reason
about the position of classes in the sorted unique class list. -/

theorem charsLe_total : ∀ as bs : List Char, charsLe as bs = true ∨ charsLe bs as = true
  | [], _ => Or.inl rfl
  | _ :: _, [] => Or.inr rfl
  | a :: as, b :: bs => by
      by_cases hab : a = b
      · subst hab
        rcases charsLe_total as bs with h | h
        · exact Or.inl (by simp [charsLe, h])
        · exact Or.inr (by simp [charsLe, h])
      · rcases le_total a b with h | h
        · exact Or.inl (by simp [charsLe, hab, h])
        · exact Or.inr (by simp [charsLe, Ne.symm hab, h])

theorem charsLe_antisymm : ∀ {as bs : List Char},
    charsLe as bs = true → charsLe bs as = true → as = bs
  | [], [], _, _ => rfl
  | [], _ :: _, _, h2 => by simp [charsLe] at h2
  | _ :: _, [], h1, _ => by simp [charsLe] at h1
  | a :: as, b :: bs, h1, h2 => by
      by_cases hab : a = b
      · subst hab
        simp only [charsLe, if_pos rfl] at h1 h2
        exact congrArg (a :: ·) (charsLe_antisymm h1 h2)
      · simp only [charsLe, if_neg hab, if_neg (Ne.symm hab), decide_eq_true_eq] at h1 h2
        exact absurd (le_antisymm h1 h2) hab

theorem charsLe_trans : ∀ {as bs cs : List Char},
    charsLe as bs = true → charsLe bs cs = true → charsLe as cs = true
  | [], _, _, _, _ => rfl
  | _ :: _, [], _, h1, _ => by simp [charsLe] at h1
  | _ :: _, _ :: _, [], _, h2 => by simp [charsLe] at h2
  | a :: as, b :: bs, c :: cs, h1, h2 => by
      by_cases hab : a = b <;> by_cases hbc : b = c
      · subst hab; subst hbc
        simp only [charsLe, if_pos rfl] at h1 h2 ⊢
        exact charsLe_trans h1 h2
      · subst hab
        simp only [charsLe, if_pos rfl, if_neg hbc] at h2 ⊢
        exact h2
      · subst hbc
        simp only [charsLe, if_neg hab, if_pos rfl] at h1 ⊢
        exact h1
      · simp only [charsLe, if_neg hab, if_neg hbc, decide_eq_true_eq] at h1 h2
        have hac : a ≤ c := le_trans h1 h2
        by_cases h : a = c
        · subst h
          exact absurd (le_antisymm h1 h2) hab
        · simp [charsLe, h, hac]

theorem strLeB_total (a b : String) : strLeB a b = true ∨ strLeB b a = true :=
  charsLe_total a.data b.data

theorem strLeB_antisymm {a b : String} (h1 : strLeB a b = true) (h2 : strLeB b a = true) :
    a = b := by
  cases a with
  | mk as =>
      cases b with
      | mk bs => exact congrArg String.mk (charsLe_antisymm h1 h2)

theorem strLeB_trans {a b c : String} (h1 : strLeB a b = true) (h2 : strLeB b c = true) :
    strLeB a c = true :=
  charsLe_trans h1 h2

theorem strLeB_empty_le (s : String) : strLeB "" s = true := rfl

theorem pairLe_insertLe {α : Type} {le : α → α → Bool}
    (htot : ∀ a b, le a b = true ∨ le b a = true)
    (htrans : ∀ {a b c}, le a b = true → le b c = true → le a c = true)
    {x : α} : ∀ {l : List α}, l.Pairwise (fun a b => le a b = true) →
      (insertLe le x l).Pairwise (fun a b => le a b = true)
  | [], _ => by simp [insertLe]
  | y :: ys, hl => by
      rcases List.pairwise_cons.mp hl with ⟨hy, hys⟩
      by_cases h : le x y = true
      · simp only [insertLe, if_pos h]
        refine List.pairwise_cons.mpr ⟨?_, hl⟩
        intro z hz
        rcases List.mem_cons.mp hz with hz | hz
        · exact hz ▸ h
        · exact htrans h (hy z hz)
      · have hyx : le y x = true := (htot x y).resolve_left h
        simp only [insertLe, if_neg h]
        refine List.pairwise_cons.mpr ⟨?_, pairLe_insertLe htot @htrans hys⟩
        intro z hz
        rcases mem_insertLe.mp hz with hz | hz
        · exact hz ▸ hyx
        · exact hy z hz

theorem pairLe_sortLe {α : Type} {le : α → α → Bool}
    (htot : ∀ a b, le a b = true ∨ le b a = true)
    (htrans : ∀ {a b c}, le a b = true → le b c = true → le a c = true) :
    ∀ l : List α, (sortLe le l).Pairwise (fun a b => le a b = true)
  | [] => by simp [sortLe]
  | x :: xs => pairLe_insertLe htot @htrans (pairLe_sortLe htot @htrans xs)

theorem dedupAdj_sublist {α : Type} [DecidableEq α] :
    ∀ l : List α, List.Sublist (dedupAdj l) l
  | [] => List.Sublist.refl []
  | [x] => List.Sublist.refl [x]
  | x :: y :: ys => by
      by_cases h : x = y
      · simp only [dedupAdj, if_pos h]
        exact List.Sublist.cons x (dedupAdj_sublist (y :: ys))
      · simp only [dedupAdj, if_neg h]
        exact List.Sublist.cons₂ x (dedupAdj_sublist (y :: ys))

theorem pairLe_dedupAdj {α : Type} [DecidableEq α] {le : α → α → Bool} {l : List α}
    (h : l.Pairwise (fun a b => le a b = true)) :
    (dedupAdj l).Pairwise (fun a b => le a b = true) :=
  List.Pairwise.sublist (dedupAdj_sublist l) h

/-- When the empty string is among the fitted values, it is the first class
of the sorted unique class list: `np.unique` sorts, and the empty string is
lexicographically minimal. -/
theorem npUnique_empty_head {xs cs : List Val}
    (h : npUnique xs = Except.ok cs) (hm : Val.vstr "" ∈ xs) :
    ∃ t, cs = Val.vstr "" :: t := by
  unfold npUnique at h
  cases hstr : mapE asStr xs with
  | ok strs =>
      rw [hstr] at h
      simp only [Except.ok.injEq] at h
      rcases mapE_mem hstr (Val.vstr "") hm with ⟨s, hs, hmem⟩
      have hs' : s = "" := by simpa [asStr] using hs.symm
      subst hs'
      have hmem' : ("" : String) ∈ dedupAdj (sortLe strLeB strs) :=
        mem_dedupAdj.mpr (mem_sortLe.mpr hmem)
      have hpair : (dedupAdj (sortLe strLeB strs)).Pairwise
          (fun a b => strLeB a b = true) :=
        pairLe_dedupAdj (pairLe_sortLe strLeB_total (fun h1 h2 => strLeB_trans h1 h2) strs)
      cases hl : dedupAdj (sortLe strLeB strs) with
      | nil => rw [hl] at hmem'; exact absurd hmem' (List.not_mem_nil "")
      | cons h0 rest =>
          rw [hl] at hmem' hpair
          have h0empty : h0 = "" := by
            rcases List.mem_cons.mp hmem' with he | he
            · exact he.symm
            · exact strLeB_antisymm ((List.pairwise_cons.mp hpair).1 "" he)
                (strLeB_empty_le h0)
          subst h0empty
          exact ⟨rest.map Val.vstr, by rw [← h, hl]; simp⟩
  | error err =>
      rw [hstr] at h
      cases hnum : mapE asNum xs with
      | ok ns =>
          rcases mapE_mem hnum (Val.vstr "") hm with ⟨n, hn, _⟩
          exact absurd hn (by simp [asNum])
      | error err' => rw [hnum] at h; exact absurd h (by simp)

/-! Inversion lemmas for `fit` and shape lemmas for `transformSeq`. -/

theorem zipWith_map_same {α β γ δ : Type} (f : β → γ → δ) (g : α → β) (p : α → γ) :
    ∀ l : List α, List.zipWith f (l.map g) (l.map p) = l.map (fun x => f (g x) (p x))
  | [] => rfl
  | x :: xs => by simp [zipWith_map_same f g p xs]

theorem fitTail_inversion {E e : Encoder} {cs : List Val}
    (h : (if E.maskMissing then
            match mapE E.delegateTransform1 cs with
            | Except.error err => Except.error err
            | Except.ok encoded =>
                match encoded.head? with
                | some hv => Except.ok { E with missing_encoded_value := some hv }
                | none => Except.error Err.indexError
          else Except.ok E) = Except.ok e) :
    (E.maskMissing = true ∧
      ∃ encoded hv, mapE E.delegateTransform1 cs = Except.ok encoded
        ∧ encoded.head? = some hv
        ∧ e = { E with missing_encoded_value := some hv })
    ∨ (E.maskMissing = false ∧ e = E) := by
  split at h
  next hms =>
    split at h
    next err heq2 => exact Except.noConfusion h
    next encoded heq2 =>
      split at h
      next hv hh => exact Or.inl ⟨hms, encoded, hv, heq2, hh, (Except.ok.inj h).symm⟩
      next hh => exact Except.noConfusion h
  next hms =>
    exact Or.inr ⟨by simpa using hms, (Except.ok.inj h).symm⟩

theorem fit_inversion {e0 e : Encoder} {vec : List Val}
    (hd : e0.has_delegate = true)
    (h : e0.fit vec = Except.ok e) :
    ∃ cs,
      npUnique (if e0.ignoreMissing then vec else e0.missing_replaced_by :: vec) =
          Except.ok cs
        ∧ e.etype = e0.etype
        ∧ e.for_target = e0.for_target
        ∧ e.encoded_type = e0.encoded_type
        ∧ e.missing_handle = e0.missing_handle
        ∧ e.missing_values = e0.missing_values
        ∧ e.missing_replaced_by = e0.missing_replaced_by
        ∧ e.has_str_encoder = e0.has_str_encoder
        ∧ e.has_delegate = e0.has_delegate
        ∧ e.classes = some cs
        ∧ e.str_classes = (if e0.has_str_encoder = true then some cs else e0.str_classes)
        ∧ e.delegate_classes = some cs := by
  unfold Encoder.fit at h
  rw [hd] at h
  simp only [Bool.not_true] at h
  rw [if_neg Bool.false_ne_true] at h
  split at h
  next err heq => exact Except.noConfusion h
  next cs heq =>
    refine ⟨cs, heq, ?_⟩
    rcases fitTail_inversion h with ⟨_, _, _, _, _, he⟩ | ⟨_, he⟩ <;> subst he <;> simp [hd]

theorem fit_mask_inversion {e0 e : Encoder} {vec : List Val}
    (hd : e0.has_delegate = true)
    (hm : (!e0.for_target && e0.missing_handle == "mask") = true)
    (h : e0.fit vec = Except.ok e) :
    ∃ cs encoded hv,
      npUnique (if e0.ignoreMissing then vec else e0.missing_replaced_by :: vec) =
          Except.ok cs
        ∧ mapE e.delegateTransform1 cs = Except.ok encoded
        ∧ encoded.head? = some hv
        ∧ e.missing_encoded_value = some hv
        ∧ e.classes = some cs := by
  unfold Encoder.fit at h
  rw [hd] at h
  simp only [Bool.not_true] at h
  rw [if_neg Bool.false_ne_true] at h
  split at h
  next err heq => exact Except.noConfusion h
  next cs heq =>
    rcases fitTail_inversion h with ⟨_, encoded, hv, hmap, hh, he⟩ | ⟨hms, _⟩
    · subst he
      exact ⟨cs, encoded, hv, heq, hmap, hh, rfl, rfl⟩
    · exact absurd hm (by simpa [Encoder.maskMissing] using hms)

theorem transformSeq_length {e : Encoder} {vs0 : List Val} {rs : List EVal}
    (h : e.transformSeq vs0 = Except.ok rs) : rs.length = vs0.length := by
  unfold Encoder.transformSeq at h
  split at h
  next err heq => exact Except.noConfusion h
  next vs heq =>
    have hlen : vs.length = vs0.length := by
      by_cases hs : e.has_str_encoder = true
      · rw [if_pos hs] at heq
        cases hsc : e.str_classes with
        | none => rw [hsc] at heq; exact Except.noConfusion heq
        | some scs => rw [hsc] at heq; exact mapE_length heq
      · rw [if_neg hs] at heq
        have := Except.ok.inj heq
        rw [this]
    rw [← hlen]
    dsimp only at h
    split at h
    · split at h
      · split at h
        next err heq2 => exact Except.noConfusion h
        next res heq2 =>
          have hreslen : res.length = vs.length := by simpa using mapE_length heq2
          split at h
          · have hr := Except.ok.inj h
            rw [← hr]
            simp [List.length_zipWith, hreslen]
          · have hr := Except.ok.inj h
            rw [← hr, hreslen]
      · exact mapE_length h
    · exact mapE_length h

theorem npUnique_input_str {xs cs : List Val} {t : String}
    (h : npUnique xs = Except.ok cs) (ht : Val.vstr t ∈ xs) :
    ∀ x ∈ xs, ∃ u, x = Val.vstr u := by
  unfold npUnique at h
  cases hstr : mapE asStr xs with
  | ok strs =>
      intro x hx
      rcases mapE_mem hstr x hx with ⟨u, hu, _⟩
      exact ⟨u, asStr_ok hu⟩
  | error err =>
      rw [hstr] at h
      cases hnum : mapE asNum xs with
      | ok ns =>
          rcases mapE_mem hnum (Val.vstr t) ht with ⟨n, hn, _⟩
          exact absurd hn (by simp [asNum])
      | error err' => rw [hnum] at h; exact absurd h (by simp)

theorem mkEncoder_ok_fields {t : String} {tgt : Bool} {nt : NumType} {mh : String}
    {ms : Option (List Val)} {r : Val} {e0 : Encoder}
    (h : mkEncoder t tgt nt mh ms r = Except.ok e0) :
    e0.etype = t ∧ e0.for_target = tgt
      ∧ e0.encoded_type = (if tgt then NumType.int else nt)
      ∧ e0.missing_handle = mh
      ∧ e0.missing_values = Val.vnone :: ms.getD []
      ∧ e0.missing_replaced_by = r
      ∧ e0.missing_encoded_value = none
      ∧ e0.has_str_encoder = (t == "one-hot" && !tgt)
      ∧ e0.has_delegate = !(t == "no-op")
      ∧ e0.classes = none ∧ e0.enc_classes = none ∧ e0.str_classes = none
      ∧ e0.delegate_classes = none := by
  unfold mkEncoder at h
  split at h
  next => exact Except.noConfusion h
  next =>
    split at h
    next => exact Except.noConfusion h
    next =>
      have he := Except.ok.inj h
      rw [← he]
      exact ⟨rfl, rfl, rfl, rfl, rfl, rfl, rfl, rfl, rfl, rfl, rfl, rfl, rfl⟩

/-- Evaluation of `transformSeq` without a string pre-encoder, under a
policy that inspects the missing mask, when the policy is `encode` (the
mask-restoration branch is off), on a single value. -/
theorem transformSeq_encode_singleton {e : Encoder} {v : Val}
    (hse : e.has_str_encoder = false)
    (hmaskf : e.maskMissing = false)
    (hpol : (e.maskMissing || e.encodeMissing) = true) :
    e.transformSeq [v] =
      mapE e.delegateTransform1 [if v ∈ e.missing_values then e.missing_replaced_by else v] := by
  unfold Encoder.transformSeq
  rw [hse]
  rw [if_neg Bool.false_ne_true]
  dsimp only
  rw [hpol]
  rw [if_pos rfl]
  by_cases hvm : v ∈ e.missing_values
  · have hmask : (List.map (fun x => decide (x ∈ e.missing_values)) [v]).any id = true := by
      simp [hvm]
    rw [hmask]
    rw [if_pos rfl]
    have hnvec : (List.map (fun x => if x ∈ e.missing_values then e.missing_replaced_by else x) [v]) =
        [if v ∈ e.missing_values then e.missing_replaced_by else v] := by simp
    rw [hnvec]
    cases hres : mapE e.delegateTransform1 [if v ∈ e.missing_values then e.missing_replaced_by else v] with
    | error err => rfl
    | ok res =>
        rw [hmaskf]
        rfl
  · have hmask : (List.map (fun x => decide (x ∈ e.missing_values)) [v]).any id = false := by
      simp [hvm]
    rw [hmask]
    rw [if_neg Bool.false_ne_true]
    simp [hvm]

/-- Evaluation of `transformSeq` with a string pre-encoder when none of the
pre-encoded values is recognised as missing: the missing mask is all-false
and the pre-encoded values are delegated directly. -/
theorem transformSeq_str_eval {e : Encoder} {scs vs xs : List Val}
    (hse : e.has_str_encoder = true) (hscs : e.str_classes = some scs)
    (hpre : mapE (strEncTransform scs) xs = Except.ok vs)
    (hnomiss : ∀ v ∈ vs, v ∉ e.missing_values) :
    e.transformSeq xs = mapE e.delegateTransform1 vs := by
  unfold Encoder.transformSeq
  rw [hse]
  rw [if_pos rfl]
  rw [hscs]
  dsimp only
  rw [hpre]
  dsimp only
  by_cases hpol : (e.maskMissing || e.encodeMissing) = true
  · rw [hpol]
    rw [if_pos rfl]
    have hmask : (List.map (fun x => decide (x ∈ e.missing_values)) vs).any id = false := by
      simp only [List.any_eq_false]
      intro b hb
      rcases List.mem_map.mp hb with ⟨v, hv, hvb⟩
      simp [← hvb, hnomiss v hv]
    rw [hmask]
    rw [if_neg Bool.false_ne_true]
  · have hpol' : (e.maskMissing || e.encodeMissing) = false := by
      simpa using hpol
    rw [hpol']
    rw [if_neg Bool.false_ne_true]

theorem mapE_cons_ok {α β : Type} {f : α → Except Err β} {x : α} {xs : List α}
    {ys : List β} (h : mapE f (x :: xs) = Except.ok ys) :
    ∃ y ys', f x = Except.ok y ∧ mapE f xs = Except.ok ys' ∧ ys = y :: ys' := by
  cases hx : f x with
  | error err => rw [mapE, hx] at h; exact Except.noConfusion h
  | ok y =>
      cases hxs : mapE f xs with
      | error err => rw [mapE, hx, hxs] at h; exact Except.noConfusion h
      | ok ys' =>
          rw [mapE, hx, hxs] at h
          exact ⟨y, ys', rfl, rfl, (Except.ok.inj h).symm⟩

theorem mapE_mem_rev {α β : Type} {f : α → Except Err β} :
    ∀ {xs : List α} {ys : List β}, mapE f xs = Except.ok ys →
      ∀ y ∈ ys, ∃ x ∈ xs, f x = Except.ok y
  | [], ys, h, y, hy => by
      simp [mapE] at h
      rw [h] at hy
      exact absurd hy (List.not_mem_nil y)
  | x :: xs, ys, h, y, hy => by
      rcases mapE_cons_ok h with ⟨y', ys', hx, hxs, hys⟩
      subst hys
      rcases List.mem_cons.mp hy with hy | hy
      · exact ⟨x, List.mem_cons_self x xs, hy ▸ hx⟩
      · rcases mapE_mem_rev hxs y hy with ⟨x', hx', hfx'⟩
        exact ⟨x', List.mem_cons_of_mem x hx', hfx'⟩

theorem delegateTransform1_no_nan {e : Encoder} {v : Val} {y : EVal}
    (h : e.delegateTransform1 v = Except.ok y) : y ≠ EVal.nan := by
  unfold Encoder.delegateTransform1 at h
  cases hdc : e.delegate_classes with
  | none => rw [hdc] at h; exact Except.noConfusion h
  | some cs =>
      rw [hdc] at h
      dsimp only at h
      split at h
      · unfold labelTransform at h
        cases hi : idxOf cs v with
        | none => rw [hi] at h; exact Except.noConfusion h
        | some i =>
            rw [hi] at h
            rw [← Except.ok.inj h]
            exact EVal.noConfusion
      · split at h
        · unfold binarizeRow at h
          split at h
          · rw [← Except.ok.inj h]
            exact EVal.noConfusion
          · split at h
            next i hi =>
              rw [← Except.ok.inj h]
              exact EVal.noConfusion
            next => exact Except.noConfusion h
        · have hy := Except.ok.inj h
          unfold onehotRow at hy
          split at hy
          · rw [← hy]; exact EVal.noConfusion
          · rw [← hy]; exact EVal.noConfusion

/-- Evaluation of `transformSeq` without a string pre-encoder under the mask
policy, with at least one missing entry and non-integer output: the masked
positions are overwritten with the not-a-number placeholder. -/
theorem transformSeq_mask_eval {e : Encoder} {xs : List Val}
    (hse : e.has_str_encoder = false)
    (hpol : (e.maskMissing || e.encodeMissing) = true)
    (hany : ((xs.map fun v => decide (v ∈ e.missing_values)).any id) = true)
    (hcast : (e.maskMissing && !(e.encoded_type == NumType.int)) = true)
    {res : List EVal}
    (hres : mapE e.delegateTransform1
        (xs.map fun v => if v ∈ e.missing_values then e.missing_replaced_by else v) =
        Except.ok res) :
    e.transformSeq xs = Except.ok (List.zipWith (fun r m => if m then EVal.nan else r) res
        (xs.map fun v => decide (v ∈ e.missing_values))) := by
  unfold Encoder.transformSeq
  rw [hse]
  rw [if_neg Bool.false_ne_true]
  dsimp only
  rw [hpol]
  rw [if_pos rfl]
  rw [hany]
  rw [if_pos rfl]
  rw [hres]
  dsimp only
  rw [hcast]
  rw [if_pos rfl]

/-- When the mask-restoration branch is off (integer output or encode
policy), `transformSeq` reduces to pre-encoding, substituting the
replacement at missing positions when any are present, and delegating. -/
theorem transformSeq_cast_false {e : Encoder} (xs : List Val)
    (hcast : (e.maskMissing && !(e.encoded_type == NumType.int)) = false)
    (hpol : (e.maskMissing || e.encodeMissing) = true) :
    e.transformSeq xs =
      (match (if e.has_str_encoder = true then
                match e.str_classes with
                | none => Except.error Err.notFitted
                | some scs => mapE (strEncTransform scs) xs
              else Except.ok xs) with
       | Except.error err => Except.error err
       | Except.ok vs =>
           if ((vs.map fun v => decide (v ∈ e.missing_values)).any id) then
             mapE e.delegateTransform1
               (vs.map fun v => if v ∈ e.missing_values then e.missing_replaced_by else v)
           else mapE e.delegateTransform1 vs) := by
  unfold Encoder.transformSeq
  cases hpre : (if e.has_str_encoder = true then
      match e.str_classes with
      | none => Except.error Err.notFitted
      | some scs => mapE (strEncTransform scs) xs
    else Except.ok xs) with
  | error err => rfl
  | ok vs =>
      dsimp only
      rw [hpol]
      rw [if_pos rfl]
      by_cases hany : ((vs.map fun v => decide (v ∈ e.missing_values)).any id) = true
      · rw [hany]
        rw [if_pos rfl, if_pos rfl]
        cases hres : mapE e.delegateTransform1
            (vs.map fun v => if v ∈ e.missing_values then e.missing_replaced_by else v) with
        | error err => rfl
        | ok res =>
            dsimp only
            rw [hcast]
            rw [if_neg Bool.false_ne_true]
      · have hany' : ((vs.map fun v => decide (v ∈ e.missing_values)).any id) = false := by
          simpa using hany
        rw [hany']
        rw [if_neg Bool.false_ne_true, if_neg Bool.false_ne_true]

theorem transformSeq_cast_false_no_nan {e : Encoder} {xs : List Val} {rs : List EVal}
    (hcast : (e.maskMissing && !(e.encoded_type == NumType.int)) = false)
    (h : e.transformSeq xs = Except.ok rs) : EVal.nan ∉ rs := by
  intro hmem
  unfold Encoder.transformSeq at h
  split at h
  next err heq => exact Except.noConfusion h
  next vs heq =>
    split at h
    · dsimp only at h
      split at h
      · split at h
        next err heq2 => exact Except.noConfusion h
        next res heq2 =>
            split at h
            next hc =>
              rw [hcast] at hc
              exact Bool.false_ne_true hc
            next hc =>
              rcases mapE_mem_rev heq2 EVal.nan ((Except.ok.inj h) ▸ hmem) with ⟨x, _, hfx⟩
              exact delegateTransform1_no_nan hfx rfl
      · rcases mapE_mem_rev h EVal.nan hmem with ⟨x, _, hfx⟩
        exact delegateTransform1_no_nan hfx rfl
    · rcases mapE_mem_rev h EVal.nan hmem with ⟨x, _, hfx⟩
      exact delegateTransform1_no_nan hfx rfl

/-- Core of the mask-policy `missing_encoded_value` behaviour:
after a successful fit, `missing_encoded_value` is the delegate encoding of
the FIRST class of the sorted unique class list, which is the empty-string
sentinel whenever the replacement is the empty string. -/
theorem mask_mev_core {e0 e : Encoder} {vec : List Val}
    (hd0 : e0.has_delegate = true)
    (hm : (!e0.for_target && e0.missing_handle == "mask") = true)
    (hig : e0.ignoreMissing = false)
    (hfit : e0.fit vec = Except.ok e) :
    ∃ c0 t ev, e.classes = some (c0 :: t)
      ∧ e.delegateTransform1 c0 = Except.ok ev
      ∧ e.missing_encoded_value = some ev
      ∧ (e0.missing_replaced_by = Val.vstr "" → c0 = Val.vstr "") := by
  obtain ⟨cs, encoded, hv, hnp, hmap, hh, hmev, hcls⟩ := fit_mask_inversion hd0 hm hfit
  rw [hig] at hnp
  rw [if_neg Bool.false_ne_true] at hnp
  cases hcs0 : cs with
  | nil =>
      rw [hcs0] at hmap
      simp [mapE] at hmap
      rw [hmap] at hh
      exact absurd hh (by simp)
  | cons c0 ct =>
      rw [hcs0] at hmap hcls hnp
      rcases mapE_cons_ok hmap with ⟨y, ys', hy, _, hys⟩
      subst hys
      have hyv : y = hv := by simpa using hh
      subst hyv
      refine ⟨c0, ct, y, hcls, hy, hmev, ?_⟩
      intro hr
      rw [hr] at hnp
      rcases npUnique_empty_head hnp (List.mem_cons_self _ vec) with ⟨t', ht'⟩
      exact (List.cons.inj ht').1

/-! Claim theorems. -/

/-- Claim C1.  The round-trip identity `inverse_transform (transform v) = v`
fails on the code for one-hot feature encoders: `fit` fits the delegate on
the raw classes while `transform` feeds it pre-encoded ordinals, so every
value is treated as unknown.  At the concrete failing input (one-hot feature
encoder fitted on x, y; value x) the round trip returns `None` instead of
x. -/
theorem C1_onehot_feature_roundtrip_fails :
    ((mkEncoder "one-hot" false NumType.float "ignore" none (Val.vstr "")).bind
        (fun e0 => e0.fit [Val.vstr "x", Val.vstr "y"])).map
      (fun e =>
        ((e.transform (TIn.scalar (Val.vstr "x"))).bind fun r =>
          match r with
          | TOut.scalar ev => e.inverse_transform [ev]
          | TOut.seq evs => e.inverse_transform evs)) =
      Except.ok (Except.ok [Val.vnone])
    ∧ Val.vnone ≠ Val.vstr "x" := by
  decide

/-- Claim C2.  A label target encoder fitted on a, b, a, c observes the
classes a, b, c; `transform` of c, a returns the codes 2, 0 and
`inverse_transform` of 2, 0 returns c, a. -/
theorem C2_label_target_concrete :
    ((mkEncoder "label" true NumType.float "ignore" none (Val.vstr "")).bind
        (fun e0 => e0.fit [Val.vstr "a", Val.vstr "b", Val.vstr "a", Val.vstr "c"])).map
      (fun e =>
        (e.classes,
         e.transform (TIn.seq [Val.vstr "c", Val.vstr "a"]),
         e.inverse_transform [EVal.code 2, EVal.code 0])) =
    Except.ok
      (some [Val.vstr "a", Val.vstr "b", Val.vstr "c"],
       Except.ok (TOut.seq [EVal.code 2, EVal.code 0]),
       Except.ok [Val.vstr "c", Val.vstr "a"]) := by
  decide

/-- Claim C3.  A one-hot feature encoder fitted on x, y is claimed to map
the unseen value z to an all-zero indicator row without raising; on the code
`transform` raises instead: the string pre-encoder (an ordinal primitive
with no ignore-unknown mode) rejects the unseen value before the one-hot
delegate, configured with `handle_unknown="ignore"`, is ever reached. -/
theorem C3_onehot_feature_unseen_raises :
    ((mkEncoder "one-hot" false NumType.float "ignore" none (Val.vstr "")).bind
        (fun e0 => e0.fit [Val.vstr "x", Val.vstr "y"])).map
      (fun e => e.transform (TIn.seq [Val.vstr "z"])) =
    Except.ok (Except.error Err.unseenLabel) := by
  decide

/-- Claim C4.  For a one-hot feature encoder, `fit` records the pre-encoded
classes (`_enc_classes_` = the ordinals 0, 1) but fits the delegate on the
raw observed classes x, y, not on the pre-encoded form the claim states:
the recorded pre-encoding and the delegate fit input differ. -/
theorem C4_delegate_fit_on_raw_classes :
    ((mkEncoder "one-hot" false NumType.float "ignore" none (Val.vstr "")).bind
        (fun e0 => e0.fit [Val.vstr "x", Val.vstr "y"])).map
      (fun e => (e.delegate_classes, e.enc_classes)) =
      Except.ok (some [Val.vstr "x", Val.vstr "y"], some [Val.vnum 0, Val.vnum 1])
    ∧ ([Val.vstr "x", Val.vstr "y"] : List Val) ≠ [Val.vnum 0, Val.vnum 1] := by
  decide

/-- Claim C5, counterexample.  A one-hot feature encoder under the mask
policy with float output, fitted on x, NA with the missing sentinel NA:
`transform` of NA, x yields all-zero rows with no not-a-number placeholder
at the missing first position, because the string pre-encoder runs before
the missing-value mask is computed, so the pre-encoded ordinals are never
recognised as missing. -/
theorem C5_onehot_mask_no_nan :
    ((mkEncoder "one-hot" false NumType.float "mask" (some [Val.vstr "NA"]) (Val.vstr "")).bind
        (fun e0 => e0.fit [Val.vstr "x", Val.vstr "NA"])).map
      (fun e => e.transform (TIn.seq [Val.vstr "NA", Val.vstr "x"])) =
      Except.ok (Except.ok (TOut.seq [EVal.row [0, 0, 0], EVal.row [0, 0, 0]]))
    ∧ EVal.row [0, 0, 0] ≠ EVal.nan := by
  decide

/-- Claim C6, counterexample.  With replacement sentinel z and the single
observed value a, `np.unique` sorts the classes to a, z, so
`missing_encoded_value` is set to the encoding of a (code 0), not to the
encoding of the sentinel z (code 1): the first position holds the smallest
class, not the inserted sentinel. -/
theorem C6_mev_not_sentinel :
    ((mkEncoder "label" false NumType.float "mask" none (Val.vstr "z")).bind
        (fun e0 => e0.fit [Val.vstr "a"])).map
      (fun e => (e.missing_encoded_value, e.delegateTransform1 (Val.vstr "z"))) =
      Except.ok (some (EVal.code 0), Except.ok (EVal.code 1))
    ∧ EVal.code 0 ≠ EVal.code 1 := by
  decide

/-- Claim C9, counterexample.  Only string scalars are wrapped into a
length-1 sequence: for a label target encoder fitted on the numeric values
0, 1, the sequence input 1 transforms fine, but the scalar input 1 is
passed through unwrapped and fails, rather than being processed as a
length-1 sequence and unwrapped back to a scalar. -/
theorem C9_nonstring_scalar_fails :
    ((mkEncoder "label" true NumType.float "ignore" none (Val.vstr "")).bind
        (fun e0 => e0.fit [Val.vnum 0, Val.vnum 1])).map
      (fun e =>
        (e.transform (TIn.seq [Val.vnum 1]),
         e.transform (TIn.scalar (Val.vnum 1)))) =
    Except.ok (Except.ok (TOut.seq [EVal.code 1]), Except.error Err.typeError) := by
  decide

/-- Claim C7.  For every non-target encoder (label or one-hot strategy)
under the encode policy, fitted on a column containing a string missing
sentinel, transform yields identical encoded output for the sentinel and
for the explicit replacement value.  (For the label strategy the sentinel
is substituted by the replacement before delegation; for the one-hot
strategy both values are pre-encoded to ordinals the delegate was not
fitted on and map to the same all-zero unknown row.)  The missing-value set
is assumed to contain no numeric sentinel, so that a pre-encoded ordinal is
never itself recognised as missing. -/
theorem C7_encode_sentinel_eq_replacement
    (strat : String) (nt : NumType) (ms : Option (List Val)) (r : Val)
    (vec : List Val) (s : String) (e0 e : Encoder)
    (hstrat : strat = "label" ∨ strat = "one-hot")
    (hmk : mkEncoder strat false nt "encode" ms r = Except.ok e0)
    (hfit : e0.fit vec = Except.ok e)
    (hs : Val.vstr s ∈ e.missing_values)
    (hsv : Val.vstr s ∈ vec)
    (hnonum : ∀ n : Nat, Val.vnum n ∉ e.missing_values) :
    e.transform (TIn.seq [Val.vstr s]) = e.transform (TIn.seq [r]) := by
  rcases hstrat with hl | hl <;> subst hl
  · -- label strategy
    obtain ⟨hm_et, hm_tg, hm_ent, hm_mh, hm_mv, hm_rep, hm_mev, hm_se, hm_del,
      hm_cl, hm_enc, hm_sc, hm_dc⟩ := mkEncoder_ok_fields hmk
    have hd0 : e0.has_delegate = true := by rw [hm_del]; decide
    obtain ⟨cs, hnp, hety, htgt, hent, hmh, hmv, hrept, hse, hdel, hcls, hstrcls, hdcls⟩ :=
      fit_inversion hd0 hfit
    have hsef : e.has_str_encoder = false := by rw [hse, hm_se]; decide
    have hmaskf : e.maskMissing = false := by
      unfold Encoder.maskMissing
      rw [htgt, hm_tg, hmh, hm_mh]
      decide
    have hpol : (e.maskMissing || e.encodeMissing) = true := by
      rw [hmaskf]
      unfold Encoder.encodeMissing
      rw [htgt, hm_tg, hmh, hm_mh]
      decide
    have hrepe : e.missing_replaced_by = r := by rw [hrept, hm_rep]
    have hdeleg : e.has_delegate = true := by rw [hdel, hm_del]; decide
    unfold Encoder.transform
    rw [hdeleg]
    simp only [Bool.not_true]
    rw [if_neg Bool.false_ne_true]
    congr 1
    rw [transformSeq_encode_singleton hsef hmaskf hpol,
        transformSeq_encode_singleton hsef hmaskf hpol]
    rw [if_pos hs, hrepe]
    rw [ite_self]
  · -- one-hot strategy
    obtain ⟨hm_et, hm_tg, hm_ent, hm_mh, hm_mv, hm_rep, hm_mev, hm_se, hm_del,
      hm_cl, hm_enc, hm_sc, hm_dc⟩ := mkEncoder_ok_fields hmk
    have hd0 : e0.has_delegate = true := by rw [hm_del]; decide
    obtain ⟨cs, hnp, hety, htgt, hent, hmh, hmv, hrept, hse, hdel, hcls, hstrcls, hdcls⟩ :=
      fit_inversion hd0 hfit
    have hse0 : e0.has_str_encoder = true := by rw [hm_se]; decide
    have hset : e.has_str_encoder = true := by rw [hse, hse0]
    have hstrcls' : e.str_classes = some cs := by
      rw [hstrcls, hse0, if_pos rfl]
    have hig : e0.ignoreMissing = false := by
      unfold Encoder.ignoreMissing
      rw [hm_tg, hm_mh]
      decide
    have hnp' : npUnique (r :: vec) = Except.ok cs := by
      have h1 := hnp
      rw [hig] at h1
      rw [if_neg Bool.false_ne_true] at h1
      rw [hm_rep] at h1
      exact h1
    have hsin : Val.vstr s ∈ r :: vec := List.mem_cons_of_mem r hsv
    have hscs : Val.vstr s ∈ cs := npUnique_mem hnp' hsin
    have hallstr : ∀ c ∈ cs, ∃ u, c = Val.vstr u := npUnique_all_str hnp' hsin
    have hrcs : r ∈ cs := npUnique_mem hnp' (List.mem_cons_self r vec)
    rcases idxOf_some_of_mem hscs with ⟨i, hi⟩
    rcases idxOf_some_of_mem hrcs with ⟨j, hj⟩
    have hpre1 : mapE (strEncTransform cs) [Val.vstr s] = Except.ok [Val.vnum i] := by
      simp [mapE, strEncTransform, hi]
    have hpre2 : mapE (strEncTransform cs) [r] = Except.ok [Val.vnum j] := by
      simp [mapE, strEncTransform, hj]
    have hnomiss1 : ∀ v ∈ [Val.vnum i], v ∉ e.missing_values := by
      intro v hv
      rw [List.mem_singleton.mp hv]
      exact hnonum i
    have hnomiss2 : ∀ v ∈ [Val.vnum j], v ∉ e.missing_values := by
      intro v hv
      rw [List.mem_singleton.mp hv]
      exact hnonum j
    have hnotmem : ∀ n : Nat, Val.vnum n ∉ cs := by
      intro n hmem
      rcases hallstr _ hmem with ⟨u', hu'⟩
      exact Val.noConfusion hu'
    have hdt : ∀ n : Nat, e.delegateTransform1 (Val.vnum n) =
        Except.ok (EVal.row (List.replicate cs.length 0)) := by
      intro n
      unfold Encoder.delegateTransform1
      rw [hdcls]
      dsimp only
      rw [hety, hm_et]
      rw [if_neg (by decide)]
      rw [htgt, hm_tg]
      rw [if_neg (by decide)]
      unfold onehotRow
      rw [idxOf_none_of_not_mem (hnotmem n)]
    have hdeleg : e.has_delegate = true := by rw [hdel, hm_del]; decide
    unfold Encoder.transform
    rw [hdeleg]
    simp only [Bool.not_true]
    rw [if_neg Bool.false_ne_true]
    congr 1
    rw [transformSeq_str_eval hset hstrcls' hpre1 hnomiss1,
        transformSeq_str_eval hset hstrcls' hpre2 hnomiss2]
    simp [mapE, hdt i, hdt j]

/-- Witness for C7: a concrete label feature encoder under the encode
policy, fitted on a, NA with the string sentinel NA and the empty-string
replacement, transforms the sentinel and the replacement identically. -/
theorem C7_encode_sentinel_eq_replacement_witness :
    Encoder.transform
      { etype := "label", for_target := false, encoded_type := NumType.float
        missing_handle := "encode", missing_values := [Val.vnone, Val.vstr "NA"]
        missing_replaced_by := Val.vstr "", missing_encoded_value := none
        has_str_encoder := false, has_delegate := true
        classes := some [Val.vstr "", Val.vstr "NA", Val.vstr "a"]
        enc_classes := some [Val.vstr "", Val.vstr "NA", Val.vstr "a"]
        str_classes := none
        delegate_classes := some [Val.vstr "", Val.vstr "NA", Val.vstr "a"] }
      (TIn.seq [Val.vstr "NA"]) =
    Encoder.transform
      { etype := "label", for_target := false, encoded_type := NumType.float
        missing_handle := "encode", missing_values := [Val.vnone, Val.vstr "NA"]
        missing_replaced_by := Val.vstr "", missing_encoded_value := none
        has_str_encoder := false, has_delegate := true
        classes := some [Val.vstr "", Val.vstr "NA", Val.vstr "a"]
        enc_classes := some [Val.vstr "", Val.vstr "NA", Val.vstr "a"]
        str_classes := none
        delegate_classes := some [Val.vstr "", Val.vstr "NA", Val.vstr "a"] }
      (TIn.seq [Val.vstr ""]) :=
  C7_encode_sentinel_eq_replacement "label" NumType.float (some [Val.vstr "NA"])
    (Val.vstr "") [Val.vstr "a", Val.vstr "NA"] "NA"
    { etype := "label", for_target := false, encoded_type := NumType.float
      missing_handle := "encode", missing_values := [Val.vnone, Val.vstr "NA"]
      missing_replaced_by := Val.vstr "", missing_encoded_value := none
      has_str_encoder := false, has_delegate := true
      classes := none, enc_classes := none, str_classes := none
      delegate_classes := none }
    { etype := "label", for_target := false, encoded_type := NumType.float
      missing_handle := "encode", missing_values := [Val.vnone, Val.vstr "NA"]
      missing_replaced_by := Val.vstr "", missing_encoded_value := none
      has_str_encoder := false, has_delegate := true
      classes := some [Val.vstr "", Val.vstr "NA", Val.vstr "a"]
      enc_classes := some [Val.vstr "", Val.vstr "NA", Val.vstr "a"]
      str_classes := none
      delegate_classes := some [Val.vstr "", Val.vstr "NA", Val.vstr "a"] }
    (Or.inl rfl) (by decide) (by decide) (by decide) (by decide)
    (by intro n h; simp at h)

/-- Claim C8.  Construction fails whenever the strategy name is not one of
label, one-hot, no-op (a `ValueError`) or the missing-value policy is not
one of ignore, mask, encode (the `assert`); in the embedding the
constructor returns an error and no object exists. -/
theorem C8_invalid_config_rejected (t : String) (tgt : Bool) (nt : NumType)
    (mh : String) (ms : Option (List Val)) (r : Val)
    (h : t ∉ (["label", "one-hot", "no-op"] : List String)
       ∨ mh ∉ (["ignore", "mask", "encode"] : List String)) :
    ∃ err, mkEncoder t tgt nt mh ms r = Except.error err := by
  unfold mkEncoder
  by_cases hmh : mh ∉ (["ignore", "mask", "encode"] : List String)
  · exact ⟨Err.assertionError, by rw [if_pos hmh]⟩
  · have ht := h.resolve_right hmh
    exact ⟨Err.valueError, by rw [if_neg hmh, if_pos ht]⟩

/-- Witness for C8: the unrecognized strategy name bogus is rejected. -/
theorem C8_invalid_config_rejected_witness :
    ∃ err, mkEncoder "bogus" true NumType.float "ignore" none (Val.vstr "") =
      Except.error err :=
  C8_invalid_config_rejected "bogus" true NumType.float "ignore" none (Val.vstr "")
    (Or.inl (by decide))

/-- Claim C9, amended.  A scalar STRING input is wrapped into a length-1
sequence and the result unwrapped back to a scalar: whenever transforming
the length-1 sequence succeeds, its result has exactly one entry and the
scalar call returns precisely that entry as a scalar, for any strategy
(including the no-op passthrough). -/
theorem C9_string_scalar_unwrap (e : Encoder) (s : String) (rs : List EVal)
    (h : e.transform (TIn.seq [Val.vstr s]) = Except.ok (TOut.seq rs)) :
    ∃ r, rs = [r] ∧ e.transform (TIn.scalar (Val.vstr s)) = Except.ok (TOut.scalar r) := by
  unfold Encoder.transform at h ⊢
  by_cases hd : e.has_delegate = true
  · rw [hd] at h ⊢
    simp only [Bool.not_true] at h ⊢
    rw [if_neg Bool.false_ne_true] at h ⊢
    cases hts : e.transformSeq [Val.vstr s] with
    | error err =>
        rw [hts] at h
        exact absurd h (by simp [Except.map])
    | ok rs' =>
        rw [hts] at h
        simp only [Except.map] at h
        have hrs : rs' = rs := TOut.seq.inj (Except.ok.inj h)
        subst hrs
        have hlen : rs'.length = 1 := by simpa using transformSeq_length hts
        rcases List.length_eq_one.mp hlen with ⟨r, hr⟩
        subst hr
        exact ⟨r, rfl, rfl⟩
  · have hd' : e.has_delegate = false := by simpa using hd
    rw [hd'] at h ⊢
    simp only [Bool.not_false] at h ⊢
    rw [if_pos trivial] at h ⊢
    have hrs : rs = [EVal.raw (Val.vstr s)] := by
      have h2 := TOut.seq.inj (Except.ok.inj h)
      simpa using h2.symm
    subst hrs
    exact ⟨EVal.raw (Val.vstr s), rfl, rfl⟩

/-- Witness for C9: a label target encoder fitted on cat; the sequence
result for cat is the single code 0 and the scalar call returns exactly
that code as a scalar. -/
theorem C9_string_scalar_unwrap_witness :
    ∃ r, ([EVal.code 0] : List EVal) = [r] ∧
      Encoder.transform
        { etype := "label", for_target := true, encoded_type := NumType.int
          missing_handle := "ignore", missing_values := [Val.vnone]
          missing_replaced_by := Val.vstr "", missing_encoded_value := none
          has_str_encoder := false, has_delegate := true
          classes := some [Val.vstr "cat"]
          enc_classes := some [Val.vstr "cat"]
          str_classes := none
          delegate_classes := some [Val.vstr "cat"] }
        (TIn.scalar (Val.vstr "cat")) = Except.ok (TOut.scalar r) :=
  C9_string_scalar_unwrap _ "cat" [EVal.code 0] (by decide)

/-- Claim C5, amended.  For a non-target LABEL-strategy encoder under the
mask policy with float output, fitted on a column, transform of a sequence
with at least one missing entry (every non-missing entry being a fitted
class) returns the not-a-number placeholder at exactly the missing
positions and the delegate encoding (the class index) at every other
position. -/
theorem C5_label_mask_float_nan_positions
    (ms : Option (List Val)) (r : Val) (vec xs : List Val) (e0 e : Encoder) (cs : List Val)
    (hmk : mkEncoder "label" false NumType.float "mask" ms r = Except.ok e0)
    (hfit : e0.fit vec = Except.ok e)
    (hcs : e.classes = some cs)
    (hxs : ∀ x ∈ xs, x ∉ e.missing_values → x ∈ cs)
    (hmiss : ∃ x ∈ xs, x ∈ e.missing_values) :
    e.transform (TIn.seq xs) = Except.ok (TOut.seq (xs.map fun x =>
        if x ∈ e.missing_values then EVal.nan
        else EVal.code ((idxOf cs x).getD 0)))
    ∧ ∀ x ∈ xs, x ∉ e.missing_values →
        e.delegateTransform1 x = Except.ok (EVal.code ((idxOf cs x).getD 0)) := by
  obtain ⟨hm_et, hm_tg, hm_ent, hm_mh, hm_mv, hm_rep, hm_mev, hm_se, hm_del,
    hm_cl, hm_enc, hm_sc, hm_dc⟩ := mkEncoder_ok_fields hmk
  have hd0 : e0.has_delegate = true := by rw [hm_del]; decide
  obtain ⟨cs', hnp, hety, htgt, hent, hmh, hmv, hrept, hse, hdel, hcls, hstrcls, hdcls⟩ :=
    fit_inversion hd0 hfit
  have hcseq : cs' = cs := by
    rw [hcls] at hcs
    exact Option.some.inj hcs
  subst hcseq
  have hsef : e.has_str_encoder = false := by rw [hse, hm_se]; decide
  have hmm' : e.maskMissing = true := by
    unfold Encoder.maskMissing
    rw [htgt, hm_tg, hmh, hm_mh]
    decide
  have hpol : (e.maskMissing || e.encodeMissing) = true := by rw [hmm']; simp
  have hfloat : e.encoded_type = NumType.float := by rw [hent, hm_ent]; decide
  have hcast : (e.maskMissing && !(e.encoded_type == NumType.int)) = true := by
    rw [hmm', hfloat]
    decide
  have hig : e0.ignoreMissing = false := by
    unfold Encoder.ignoreMissing
    rw [hm_tg, hm_mh]
    decide
  have hnp' : npUnique (r :: vec) = Except.ok cs' := by
    have h1 := hnp
    rw [hig] at h1
    rw [if_neg Bool.false_ne_true] at h1
    rw [hm_rep] at h1
    exact h1
  have hrepe : e.missing_replaced_by = r := by rw [hrept, hm_rep]
  have hrcs : e.missing_replaced_by ∈ cs' := by
    rw [hrepe]
    exact npUnique_mem hnp' (List.mem_cons_self r vec)
  have hdeleg : e.has_delegate = true := by rw [hdel, hm_del]; decide
  have hdtv : ∀ v, v ∈ cs' →
      e.delegateTransform1 v = Except.ok (EVal.code ((idxOf cs' v).getD 0)) := by
    intro v hv
    rcases idxOf_some_of_mem hv with ⟨i, hi⟩
    unfold Encoder.delegateTransform1
    rw [hdcls]
    dsimp only
    rw [hety, hm_et]
    rw [if_pos (by decide)]
    unfold labelTransform
    rw [hi]
    rfl
  constructor
  · unfold Encoder.transform
    rw [hdeleg]
    simp only [Bool.not_true]
    rw [if_neg Bool.false_ne_true]
    have hany : ((xs.map fun v => decide (v ∈ e.missing_values)).any id) = true := by
      rcases hmiss with ⟨x, hx, hxm⟩
      refine List.any_eq_true.mpr ⟨true, ?_, rfl⟩
      exact List.mem_map.mpr ⟨x, hx, by simp [hxm]⟩
    have hres : mapE e.delegateTransform1
        (xs.map fun v => if v ∈ e.missing_values then e.missing_replaced_by else v) =
        Except.ok ((xs.map fun v => if v ∈ e.missing_values then e.missing_replaced_by else v).map
          fun v => EVal.code ((idxOf cs' v).getD 0)) := by
      apply mapE_ok_of_forall
      intro v hv
      rcases List.mem_map.mp hv with ⟨x, hx, hvx⟩
      rw [← hvx]
      by_cases hxm : x ∈ e.missing_values
      · rw [if_pos hxm]
        exact hdtv _ hrcs
      · rw [if_neg hxm]
        exact hdtv x (hxs x hx hxm)
    rw [transformSeq_mask_eval hsef hpol hany hcast hres]
    simp only [Except.map]
    rw [List.map_map]
    rw [zipWith_map_same]
    congr 2
    apply List.map_congr_left
    intro x hx
    by_cases hxm : x ∈ e.missing_values
    · simp [hxm]
    · simp [hxm]
  · intro x hx hxm
    exact hdtv x (hxs x hx hxm)

/-- Witness for C5 amended: a label feature mask encoder with float output,
sentinel NA, fitted on x, NA, transforming NA, x, None: not-a-number at the
missing positions 0 and 2, the delegate code of x at position 1. -/
theorem C5_label_mask_float_nan_positions_witness :
    Encoder.transform
      { etype := "label", for_target := false, encoded_type := NumType.float
        missing_handle := "mask", missing_values := [Val.vnone, Val.vstr "NA"]
        missing_replaced_by := Val.vstr "", missing_encoded_value := some (EVal.code 0)
        has_str_encoder := false, has_delegate := true
        classes := some [Val.vstr "", Val.vstr "NA", Val.vstr "x"]
        enc_classes := some [Val.vstr "", Val.vstr "NA", Val.vstr "x"]
        str_classes := none
        delegate_classes := some [Val.vstr "", Val.vstr "NA", Val.vstr "x"] }
      (TIn.seq [Val.vstr "NA", Val.vstr "x", Val.vnone]) =
      Except.ok (TOut.seq ([Val.vstr "NA", Val.vstr "x", Val.vnone].map fun x =>
        if x ∈ ([Val.vnone, Val.vstr "NA"] : List Val) then EVal.nan
        else EVal.code ((idxOf [Val.vstr "", Val.vstr "NA", Val.vstr "x"] x).getD 0)))
    ∧ ∀ x ∈ [Val.vstr "NA", Val.vstr "x", Val.vnone],
        x ∉ ([Val.vnone, Val.vstr "NA"] : List Val) →
        Encoder.delegateTransform1
          { etype := "label", for_target := false, encoded_type := NumType.float
            missing_handle := "mask", missing_values := [Val.vnone, Val.vstr "NA"]
            missing_replaced_by := Val.vstr "", missing_encoded_value := some (EVal.code 0)
            has_str_encoder := false, has_delegate := true
            classes := some [Val.vstr "", Val.vstr "NA", Val.vstr "x"]
            enc_classes := some [Val.vstr "", Val.vstr "NA", Val.vstr "x"]
            str_classes := none
            delegate_classes := some [Val.vstr "", Val.vstr "NA", Val.vstr "x"] } x =
          Except.ok (EVal.code ((idxOf [Val.vstr "", Val.vstr "NA", Val.vstr "x"] x).getD 0)) :=
  C5_label_mask_float_nan_positions (some [Val.vstr "NA"]) (Val.vstr "")
    [Val.vstr "x", Val.vstr "NA"] [Val.vstr "NA", Val.vstr "x", Val.vnone]
    { etype := "label", for_target := false, encoded_type := NumType.float
      missing_handle := "mask", missing_values := [Val.vnone, Val.vstr "NA"]
      missing_replaced_by := Val.vstr "", missing_encoded_value := none
      has_str_encoder := false, has_delegate := true
      classes := none, enc_classes := none, str_classes := none
      delegate_classes := none }
    { etype := "label", for_target := false, encoded_type := NumType.float
      missing_handle := "mask", missing_values := [Val.vnone, Val.vstr "NA"]
      missing_replaced_by := Val.vstr "", missing_encoded_value := some (EVal.code 0)
      has_str_encoder := false, has_delegate := true
      classes := some [Val.vstr "", Val.vstr "NA", Val.vstr "x"]
      enc_classes := some [Val.vstr "", Val.vstr "NA", Val.vstr "x"]
      str_classes := none
      delegate_classes := some [Val.vstr "", Val.vstr "NA", Val.vstr "x"] }
    [Val.vstr "", Val.vstr "NA", Val.vstr "x"]
    (by decide) (by decide) (by decide) (by decide) (by decide)

/-- Claim C6, amended.  Under the mask policy, fit sets
`missing_encoded_value` to the delegate encoding of the FIRST class of the
sorted unique class list; because `np.unique` sorts, this is the
replacement sentinel exactly when the sentinel sorts first (as the default
empty-string sentinel does among strings), not because it was inserted
first. -/
theorem C6_mask_mev_first_sorted_class
    (strat : String) (nt : NumType) (ms : Option (List Val)) (r : Val)
    (vec : List Val) (e0 e : Encoder)
    (hstrat : strat = "label" ∨ strat = "one-hot")
    (hmk : mkEncoder strat false nt "mask" ms r = Except.ok e0)
    (hfit : e0.fit vec = Except.ok e) :
    ∃ c0 t ev, e.classes = some (c0 :: t)
      ∧ e.delegateTransform1 c0 = Except.ok ev
      ∧ e.missing_encoded_value = some ev
      ∧ (r = Val.vstr "" → c0 = Val.vstr "") := by
  rcases hstrat with hl | hl
  · subst hl
    obtain ⟨hm_et, hm_tg, hm_ent, hm_mh, hm_mv, hm_rep, hm_mev, hm_se, hm_del,
      hm_cl, hm_enc, hm_sc, hm_dc⟩ := mkEncoder_ok_fields hmk
    have hd0 : e0.has_delegate = true := by rw [hm_del]; decide
    have hm2 : (!e0.for_target && e0.missing_handle == "mask") = true := by
      rw [hm_tg, hm_mh]
      decide
    have hig : e0.ignoreMissing = false := by
      unfold Encoder.ignoreMissing
      rw [hm_tg, hm_mh]
      decide
    obtain ⟨c0, t, ev, h1, h2, h3, h4⟩ := mask_mev_core hd0 hm2 hig hfit
    exact ⟨c0, t, ev, h1, h2, h3, fun hr => h4 (by rw [hm_rep, hr])⟩
  · subst hl
    obtain ⟨hm_et, hm_tg, hm_ent, hm_mh, hm_mv, hm_rep, hm_mev, hm_se, hm_del,
      hm_cl, hm_enc, hm_sc, hm_dc⟩ := mkEncoder_ok_fields hmk
    have hd0 : e0.has_delegate = true := by rw [hm_del]; decide
    have hm2 : (!e0.for_target && e0.missing_handle == "mask") = true := by
      rw [hm_tg, hm_mh]
      decide
    have hig : e0.ignoreMissing = false := by
      unfold Encoder.ignoreMissing
      rw [hm_tg, hm_mh]
      decide
    obtain ⟨c0, t, ev, h1, h2, h3, h4⟩ := mask_mev_core hd0 hm2 hig hfit
    exact ⟨c0, t, ev, h1, h2, h3, fun hr => h4 (by rw [hm_rep, hr])⟩

/-- Witness for C6 amended: with the default empty-string replacement and
the single observed value a, the first class is the empty string and
`missing_encoded_value` is its encoding, code 0. -/
theorem C6_mask_mev_first_sorted_class_witness :
    ∃ c0 t ev,
      Encoder.classes
        { etype := "label", for_target := false, encoded_type := NumType.float
          missing_handle := "mask", missing_values := [Val.vnone]
          missing_replaced_by := Val.vstr "", missing_encoded_value := some (EVal.code 0)
          has_str_encoder := false, has_delegate := true
          classes := some [Val.vstr "", Val.vstr "a"]
          enc_classes := some [Val.vstr "", Val.vstr "a"]
          str_classes := none
          delegate_classes := some [Val.vstr "", Val.vstr "a"] } = some (c0 :: t)
      ∧ Encoder.delegateTransform1
          { etype := "label", for_target := false, encoded_type := NumType.float
            missing_handle := "mask", missing_values := [Val.vnone]
            missing_replaced_by := Val.vstr "", missing_encoded_value := some (EVal.code 0)
            has_str_encoder := false, has_delegate := true
            classes := some [Val.vstr "", Val.vstr "a"]
            enc_classes := some [Val.vstr "", Val.vstr "a"]
            str_classes := none
            delegate_classes := some [Val.vstr "", Val.vstr "a"] } c0 = Except.ok ev
      ∧ Encoder.missing_encoded_value
          { etype := "label", for_target := false, encoded_type := NumType.float
            missing_handle := "mask", missing_values := [Val.vnone]
            missing_replaced_by := Val.vstr "", missing_encoded_value := some (EVal.code 0)
            has_str_encoder := false, has_delegate := true
            classes := some [Val.vstr "", Val.vstr "a"]
            enc_classes := some [Val.vstr "", Val.vstr "a"]
            str_classes := none
            delegate_classes := some [Val.vstr "", Val.vstr "a"] } = some ev
      ∧ (Val.vstr "" = Val.vstr "" → c0 = Val.vstr "") :=
  C6_mask_mev_first_sorted_class "label" NumType.float none (Val.vstr "")
    [Val.vstr "a"]
    { etype := "label", for_target := false, encoded_type := NumType.float
      missing_handle := "mask", missing_values := [Val.vnone]
      missing_replaced_by := Val.vstr "", missing_encoded_value := none
      has_str_encoder := false, has_delegate := true
      classes := none, enc_classes := none, str_classes := none
      delegate_classes := none }
    { etype := "label", for_target := false, encoded_type := NumType.float
      missing_handle := "mask", missing_values := [Val.vnone]
      missing_replaced_by := Val.vstr "", missing_encoded_value := some (EVal.code 0)
      has_str_encoder := false, has_delegate := true
      classes := some [Val.vstr "", Val.vstr "a"]
      enc_classes := some [Val.vstr "", Val.vstr "a"]
      str_classes := none
      delegate_classes := some [Val.vstr "", Val.vstr "a"] }
    (Or.inl rfl) (by decide) (by decide)

/-- Two fitted encoders that agree on everything the transform path reads,
both with a mask-inspecting policy and with the not-a-number restoration
branch off, transform sequences identically. -/
theorem transform_seq_policy_congr {m n : Encoder} (xs : List Val)
    (hety : m.etype = n.etype)
    (htgt : m.for_target = n.for_target)
    (hmv : m.missing_values = n.missing_values)
    (hrep : m.missing_replaced_by = n.missing_replaced_by)
    (hse : m.has_str_encoder = n.has_str_encoder)
    (hdel : m.has_delegate = n.has_delegate)
    (hsc : m.str_classes = n.str_classes)
    (hdc : m.delegate_classes = n.delegate_classes)
    (hpolm : (m.maskMissing || m.encodeMissing) = true)
    (hpoln : (n.maskMissing || n.encodeMissing) = true)
    (hcastm : (m.maskMissing && !(m.encoded_type == NumType.int)) = false)
    (hcastn : (n.maskMissing && !(n.encoded_type == NumType.int)) = false) :
    m.transform (TIn.seq xs) = n.transform (TIn.seq xs) := by
  have hdt : m.delegateTransform1 = n.delegateTransform1 := by
    funext v
    unfold Encoder.delegateTransform1
    rw [hdc, hety, htgt]
  unfold Encoder.transform
  rw [hdel]
  by_cases hd : n.has_delegate = true
  · rw [hd]
    simp only [Bool.not_true]
    simp only [if_neg Bool.false_ne_true]
    have hts : m.transformSeq xs = n.transformSeq xs := by
      rw [transformSeq_cast_false xs hcastm hpolm, transformSeq_cast_false xs hcastn hpoln]
      rw [hse, hsc, hmv, hrep, hdt]
    rw [hts]
  · have hd' : n.has_delegate = false := by simpa using hd
    rw [hd']
    simp only [Bool.not_false]
    rfl

/-- Claim C10.  For a non-target encoder with integer output under the mask
policy, transform of a sequence with missing entries is identical to the
transform of the matching encode-policy encoder fitted on the same column
(the mask branch with integer output skips the not-a-number restoration),
and no missing marker is restored in the output. -/
theorem C10_mask_int_indistinguishable_from_encode
    (strat : String) (ms : Option (List Val)) (r : Val) (vec xs : List Val)
    (m0 n0 m n : Encoder)
    (hstrat : strat = "label" ∨ strat = "one-hot")
    (hmkM : mkEncoder strat false NumType.int "mask" ms r = Except.ok m0)
    (hmkE : mkEncoder strat false NumType.int "encode" ms r = Except.ok n0)
    (hfitM : m0.fit vec = Except.ok m)
    (hfitE : n0.fit vec = Except.ok n)
    (hmiss : ∃ x ∈ xs, x ∈ m.missing_values) :
    m.transform (TIn.seq xs) = n.transform (TIn.seq xs)
    ∧ ∀ rs, m.transform (TIn.seq xs) = Except.ok (TOut.seq rs) → EVal.nan ∉ rs := by
  obtain ⟨hm_etM, hm_tgM, hm_entM, hm_mhM, hm_mvM, hm_repM, hm_mevM, hm_seM, hm_delM,
    hm_clM, hm_encM, hm_scM, hm_dcM⟩ := mkEncoder_ok_fields hmkM
  obtain ⟨hm_etN, hm_tgN, hm_entN, hm_mhN, hm_mvN, hm_repN, hm_mevN, hm_seN, hm_delN,
    hm_clN, hm_encN, hm_scN, hm_dcN⟩ := mkEncoder_ok_fields hmkE
  have hdval : (!(strat == "no-op")) = true := by
    rcases hstrat with hl | hl <;> subst hl <;> decide
  have hd0M : m0.has_delegate = true := by rw [hm_delM]; exact hdval
  have hd0N : n0.has_delegate = true := by rw [hm_delN]; exact hdval
  obtain ⟨csM, hnpM, hetyM, htgtM, hentM, hmhM, hmvM, hreptM, hseM, hdelM,
    hclsM, hstrclsM, hdclsM⟩ := fit_inversion hd0M hfitM
  obtain ⟨csN, hnpN, hetyN, htgtN, hentN, hmhN, hmvN, hreptN, hseN, hdelN,
    hclsN, hstrclsN, hdclsN⟩ := fit_inversion hd0N hfitE
  have higM : m0.ignoreMissing = false := by
    unfold Encoder.ignoreMissing
    rw [hm_tgM, hm_mhM]
    decide
  have higN : n0.ignoreMissing = false := by
    unfold Encoder.ignoreMissing
    rw [hm_tgN, hm_mhN]
    decide
  have hnpM' : npUnique (r :: vec) = Except.ok csM := by
    have h1 := hnpM
    rw [higM] at h1
    rw [if_neg Bool.false_ne_true] at h1
    rw [hm_repM] at h1
    exact h1
  have hnpN' : npUnique (r :: vec) = Except.ok csN := by
    have h1 := hnpN
    rw [higN] at h1
    rw [if_neg Bool.false_ne_true] at h1
    rw [hm_repN] at h1
    exact h1
  have hcs : csM = csN := by
    have := hnpM'.symm.trans hnpN'
    exact Except.ok.inj this
  subst hcs
  have hety : m.etype = n.etype := by rw [hetyM, hm_etM, hetyN, hm_etN]
  have htgt : m.for_target = n.for_target := by rw [htgtM, hm_tgM, htgtN, hm_tgN]
  have hmv : m.missing_values = n.missing_values := by rw [hmvM, hm_mvM, hmvN, hm_mvN]
  have hrep : m.missing_replaced_by = n.missing_replaced_by := by
    rw [hreptM, hm_repM, hreptN, hm_repN]
  have hse : m.has_str_encoder = n.has_str_encoder := by rw [hseM, hm_seM, hseN, hm_seN]
  have hdel : m.has_delegate = n.has_delegate := by rw [hdelM, hm_delM, hdelN, hm_delN]
  have hsc : m.str_classes = n.str_classes := by
    rw [hstrclsM, hstrclsN, hm_seM, hm_seN, hm_scM, hm_scN]
  have hdc : m.delegate_classes = n.delegate_classes := by rw [hdclsM, hdclsN]
  have hmmM : m.maskMissing = true := by
    unfold Encoder.maskMissing
    rw [htgtM, hm_tgM, hmhM, hm_mhM]
    decide
  have hpolm : (m.maskMissing || m.encodeMissing) = true := by rw [hmmM]; simp
  have hemN : n.encodeMissing = true := by
    unfold Encoder.encodeMissing
    rw [htgtN, hm_tgN, hmhN, hm_mhN]
    decide
  have hpoln : (n.maskMissing || n.encodeMissing) = true := by rw [hemN]; simp
  have hintM : m.encoded_type = NumType.int := by rw [hentM, hm_entM]; decide
  have hnotint : (!(NumType.int == NumType.int)) = false := by decide
  have hcastm : (m.maskMissing && !(m.encoded_type == NumType.int)) = false := by
    rw [hintM, hnotint, Bool.and_false]
  have hmmN : n.maskMissing = false := by
    unfold Encoder.maskMissing
    rw [htgtN, hm_tgN, hmhN, hm_mhN]
    decide
  have hcastn : (n.maskMissing && !(n.encoded_type == NumType.int)) = false := by
    rw [hmmN, Bool.false_and]
  constructor
  · exact transform_seq_policy_congr xs hety htgt hmv hrep hse hdel hsc hdc
      hpolm hpoln hcastm hcastn
  · intro rs hrs
    have hdelegM : m.has_delegate = true := by rw [hdelM, hm_delM]; exact hdval
    unfold Encoder.transform at hrs
    rw [hdelegM] at hrs
    simp only [Bool.not_true] at hrs
    rw [if_neg Bool.false_ne_true] at hrs
    cases hts : m.transformSeq xs with
    | error err => rw [hts] at hrs; exact absurd hrs (by simp [Except.map])
    | ok rs' =>
        rw [hts] at hrs
        simp only [Except.map] at hrs
        have hr : rs' = rs := TOut.seq.inj (Except.ok.inj hrs)
        subst hr
        exact transformSeq_cast_false_no_nan hcastm hts

/-- Witness for C10: a label feature encoder with integer output, sentinel
NA, fitted on x, NA: the mask-policy transform of NA, x equals the
encode-policy transform and contains no not-a-number placeholder. -/
theorem C10_mask_int_indistinguishable_from_encode_witness :
    Encoder.transform
      { etype := "label", for_target := false, encoded_type := NumType.int
        missing_handle := "mask", missing_values := [Val.vnone, Val.vstr "NA"]
        missing_replaced_by := Val.vstr "", missing_encoded_value := some (EVal.code 0)
        has_str_encoder := false, has_delegate := true
        classes := some [Val.vstr "", Val.vstr "NA", Val.vstr "x"]
        enc_classes := some [Val.vstr "", Val.vstr "NA", Val.vstr "x"]
        str_classes := none
        delegate_classes := some [Val.vstr "", Val.vstr "NA", Val.vstr "x"] }
      (TIn.seq [Val.vstr "NA", Val.vstr "x"]) =
    Encoder.transform
      { etype := "label", for_target := false, encoded_type := NumType.int
        missing_handle := "encode", missing_values := [Val.vnone, Val.vstr "NA"]
        missing_replaced_by := Val.vstr "", missing_encoded_value := none
        has_str_encoder := false, has_delegate := true
        classes := some [Val.vstr "", Val.vstr "NA", Val.vstr "x"]
        enc_classes := some [Val.vstr "", Val.vstr "NA", Val.vstr "x"]
        str_classes := none
        delegate_classes := some [Val.vstr "", Val.vstr "NA", Val.vstr "x"] }
      (TIn.seq [Val.vstr "NA", Val.vstr "x"])
    ∧ ∀ rs,
        Encoder.transform
          { etype := "label", for_target := false, encoded_type := NumType.int
            missing_handle := "mask", missing_values := [Val.vnone, Val.vstr "NA"]
            missing_replaced_by := Val.vstr "", missing_encoded_value := some (EVal.code 0)
            has_str_encoder := false, has_delegate := true
            classes := some [Val.vstr "", Val.vstr "NA", Val.vstr "x"]
            enc_classes := some [Val.vstr "", Val.vstr "NA", Val.vstr "x"]
            str_classes := none
            delegate_classes := some [Val.vstr "", Val.vstr "NA", Val.vstr "x"] }
          (TIn.seq [Val.vstr "NA", Val.vstr "x"]) = Except.ok (TOut.seq rs) →
        EVal.nan ∉ rs :=
  C10_mask_int_indistinguishable_from_encode "label" (some [Val.vstr "NA"]) (Val.vstr "")
    [Val.vstr "x", Val.vstr "NA"] [Val.vstr "NA", Val.vstr "x"]
    { etype := "label", for_target := false, encoded_type := NumType.int
      missing_handle := "mask", missing_values := [Val.vnone, Val.vstr "NA"]
      missing_replaced_by := Val.vstr "", missing_encoded_value := none
      has_str_encoder := false, has_delegate := true
      classes := none, enc_classes := none, str_classes := none
      delegate_classes := none }
    { etype := "label", for_target := false, encoded_type := NumType.int
      missing_handle := "encode", missing_values := [Val.vnone, Val.vstr "NA"]
      missing_replaced_by := Val.vstr "", missing_encoded_value := none
      has_str_encoder := false, has_delegate := true
      classes := none, enc_classes := none, str_classes := none
      delegate_classes := none }
    { etype := "label", for_target := false, encoded_type := NumType.int
      missing_handle := "mask", missing_values := [Val.vnone, Val.vstr "NA"]
      missing_replaced_by := Val.vstr "", missing_encoded_value := some (EVal.code 0)
      has_str_encoder := false, has_delegate := true
      classes := some [Val.vstr "", Val.vstr "NA", Val.vstr "x"]
      enc_classes := some [Val.vstr "", Val.vstr "NA", Val.vstr "x"]
      str_classes := none
      delegate_classes := some [Val.vstr "", Val.vstr "NA", Val.vstr "x"] }
    { etype := "label", for_target := false, encoded_type := NumType.int
      missing_handle := "encode", missing_values := [Val.vnone, Val.vstr "NA"]
      missing_replaced_by := Val.vstr "", missing_encoded_value := none
      has_str_encoder := false, has_delegate := true
      classes := some [Val.vstr "", Val.vstr "NA", Val.vstr "x"]
      enc_classes := some [Val.vstr "", Val.vstr "NA", Val.vstr "x"]
      str_classes := none
      delegate_classes := some [Val.vstr "", Val.vstr "NA", Val.vstr "x"] }
    (Or.inl rfl) (by decide) (by decide) (by decide) (by decide) (by decide)

end AutoMLBench
